import Mathlib

/-!
Verification development for the Datum in-memory dataset store
(dual-table linked-record store with entries and observables,
declarative attribute Mappers/Transformer, and a merge operator).

The store's implementation is modelled from the specification: the
repository ships only notebooks that exercise the library, so every
definition below carries a doc comment naming the component it embeds.
-/

namespace Datum

/-- Modelled from the spec: free-form attribute values are heterogeneous but
well-defined per-field (string, integer, ...).  Strings and integers cover
every field the specification mentions. -/
inductive Value where
  | vStr (s : String)
  | vInt (n : Int)
deriving DecidableEq, Repr

/-- Modelled from the spec: the open attribute map of a record, an
insertion-ordered string-keyed map of free-form fields. -/
abbrev AttrMap := List (String × Value)

/-- Look up a field in an attribute map. -/
def getAttr (m : AttrMap) (k : String) : Option Value :=
  (m.find? (fun kv => kv.1 == k)).map Prod.snd

/-- Set a field in an attribute map: overwrite on key collision
(keeping the field's position), append otherwise. -/
def setAttr (m : AttrMap) (k : String) (v : Value) : AttrMap :=
  if m.any (fun kv => kv.1 == k) then
    m.map (fun kv => if kv.1 == k then (k, v) else kv)
  else m ++ [(k, v)]

/-- Merge the fields of `upd` into `m` (overwrite on key collision, add
otherwise), as `update_entry_data` does. -/
def mergeAttrs (m upd : AttrMap) : AttrMap :=
  upd.foldl (fun acc kv => setAttr acc kv.1 kv.2) m

/-- Modelled from the spec: an Entry record — mandatory `idx` and `obs_ids`
plus an open attribute map of free-form fields. -/
structure Entry where
  idx : Nat
  obs_ids : List Nat
  attrs : AttrMap
deriving DecidableEq, Repr

/-- Modelled from the spec: an Observable record — mandatory `idx` and
`entry_id` plus an open attribute map (holding among others the mandatory
`type` category discriminator). -/
structure Observable where
  idx : Nat
  entry_id : Nat
  attrs : AttrMap
deriving DecidableEq, Repr

/-- Modelled from the spec: the error kinds raised by the store and the
transformation engine. -/
inductive DatumError where
  | notFound
  | invalidMutation
  | schemaMismatch
deriving DecidableEq, Repr

/-- Modelled from the spec: the Dataset store — the dual-table container with
one monotonic idx counter per record kind (two independent per-kind
counters), never decremented even after deletions. -/
structure Dataset where
  entries : List Entry
  observables : List Observable
  entry_counter : Nat
  obs_counter : Nat
deriving DecidableEq, Repr

/-- The empty store. -/
def datasetEmpty : Dataset :=
  { entries := [], observables := [], entry_counter := 0, obs_counter := 0 }

/-- Number of live Entries (`len(store)`). -/
def Dataset.length (d : Dataset) : Nat := d.entries.length

/-- Modelled from the spec: `add_entry(attrs) -> idx` assigns the next unused
Entry `idx` from the monotonic counter, initializes `obs_ids` to empty and
appends the new row to the entry table. -/
def add_entry (d : Dataset) (attrs : AttrMap) : Dataset × Nat :=
  ({ d with
      entries := d.entries ++ [{ idx := d.entry_counter, obs_ids := [], attrs := attrs }],
      entry_counter := d.entry_counter + 1 },
   d.entry_counter)

/-- Modelled from the spec: `get_entry(idx)` fails with `NotFound` if `idx` is
absent, otherwise returns the entry together with the ordered sequence of its
owned observables (in `obs_ids` order). -/
def get_entry (d : Dataset) (i : Nat) : Except DatumError (Entry × List Observable) :=
  match d.entries.find? (fun e => e.idx == i) with
  | none => .error .notFound
  | some e =>
      .ok (e, e.obs_ids.filterMap (fun oid => d.observables.find? (fun o => o.idx == oid)))

/-- Modelled from the spec: `update_entry_data(idx, attrs)` merges the given
fields into the existing Entry; `NotFound` if `idx` absent, `InvalidMutation`
if the caller attempts to overwrite `idx` or `obs_ids` directly. -/
def update_entry_data (d : Dataset) (i : Nat) (attrs : AttrMap) :
    Except DatumError Dataset :=
  if d.entries.any (fun e => e.idx == i) then
    if attrs.any (fun kv => kv.1 == "idx" || kv.1 == "obs_ids") then
      .error .invalidMutation
    else
      .ok { d with
        entries := d.entries.map (fun e =>
          if e.idx = i then { e with attrs := mergeAttrs e.attrs attrs } else e) }
  else .error .notFound

/-- Modelled from the spec: `remove_entry(idx)` fails with `NotFound` if
absent; otherwise deletes the Entry and every Observable it owns (cascading
delete), all-or-nothing. -/
def remove_entry (d : Dataset) (i : Nat) : Except DatumError Dataset :=
  match d.entries.find? (fun e => e.idx == i) with
  | none => .error .notFound
  | some e =>
      .ok { d with
        entries := d.entries.filter (fun e' => e'.idx ≠ i),
        observables := d.observables.filter (fun o => o.idx ∉ e.obs_ids) }

/-- Modelled from the spec: `add_observable(entry_id, attrs) -> idx` fails
with `NotFound` if `entry_id` does not name an existing Entry; otherwise
assigns the next unused Observable `idx`, stores the record and appends the
new `idx` at the end of the parent Entry's `obs_ids`. -/
def add_observable (d : Dataset) (eid : Nat) (attrs : AttrMap) :
    Except DatumError (Dataset × Nat) :=
  if d.entries.any (fun e => e.idx == eid) then
    .ok ({ d with
        observables := d.observables ++ [{ idx := d.obs_counter, entry_id := eid, attrs := attrs }],
        entries := d.entries.map (fun e =>
          if e.idx = eid then { e with obs_ids := e.obs_ids ++ [d.obs_counter] } else e),
        obs_counter := d.obs_counter + 1 },
      d.obs_counter)
  else .error .notFound

/-- Modelled from the spec: `remove_observable(idx)` fails with `NotFound` if
absent; otherwise deletes the Observable and removes its `idx` from the
parent Entry's `obs_ids`. -/
def remove_observable (d : Dataset) (i : Nat) : Except DatumError Dataset :=
  match d.observables.find? (fun o => o.idx == i) with
  | none => .error .notFound
  | some o =>
      .ok { d with
        observables := d.observables.filter (fun o' => o'.idx ≠ i),
        entries := d.entries.map (fun e =>
          if e.idx = o.entry_id then { e with obs_ids := e.obs_ids.filter (fun oid => oid ≠ i) } else e) }

/-- Modelled from the spec: `remove_entries_without_obs()` bulk-removes every
Entry whose `obs_ids` is empty. -/
def remove_entries_without_obs (d : Dataset) : Dataset :=
  { d with entries := d.entries.filter (fun e => ¬ e.obs_ids.isEmpty) }

/-- Shift of a `b`-side Entry at merge time: its `idx` moves by the entry
offset, the observable ids in `obs_ids` move by the observable offset. -/
def shiftEntry (eoff ooff : Nat) (e : Entry) : Entry :=
  { e with idx := e.idx + eoff, obs_ids := e.obs_ids.map (fun oid => oid + ooff) }

/-- Shift of a `b`-side Observable at merge time: its `idx` moves by the
observable offset, its `entry_id` by the entry offset. -/
def shiftObs (eoff ooff : Nat) (o : Observable) : Observable :=
  { o with idx := o.idx + ooff, entry_id := o.entry_id + eoff }

/-- Modelled from the spec: `merge(a, b)` (exposed as `a + b`) builds a new
store, non-mutating on both inputs: all of `a`'s records unchanged, plus all
of `b`'s records with every `idx`, `obs_ids` entry and `entry_id` shifted by
the corresponding per-kind offset (the next-unused-idx counters of `a`), so
no collisions occur and `b`'s internal cross-references stay consistent. -/
def merge (a b : Dataset) : Dataset :=
  { entries := a.entries ++ b.entries.map (shiftEntry a.entry_counter a.obs_counter),
    observables := a.observables ++ b.observables.map (shiftObs a.entry_counter a.obs_counter),
    entry_counter := a.entry_counter + b.entry_counter,
    obs_counter := a.obs_counter + b.obs_counter }

/-! ## Mapper / Transformer engine -/

/-- Read the declared input fields of a record, in declared order;
`none` when a referenced field is absent. -/
def readFields (m : AttrMap) : List String → Option (List Value)
  | [] => some []
  | k :: ks =>
      match getAttr m k with
      | none => none
      | some v =>
          match readFields m ks with
          | none => none
          | some vs => some (v :: vs)

/-- Assign results to the declared output field names, in declared order. -/
def writeFields (m : AttrMap) (ks : List String) (vs : List Value) : AttrMap :=
  (ks.zip vs).foldl (fun acc kv => setAttr acc kv.1 kv.2) m

/-- Modelled from the spec: one Mapper application to one attribute map —
read the input fields in declared order, apply the transform function to
that tuple, assign the results to the output fields in declared order;
`SchemaMismatch` when a referenced field is absent or the function's output
arity disagrees with the declared output fields. -/
def applyMapperAttrs (inF outF : List String) (f : List Value → List Value)
    (m : AttrMap) : Except DatumError AttrMap :=
  match readFields m inF with
  | none => .error .schemaMismatch
  | some vs =>
      let res := f vs
      if res.length = outF.length then .ok (writeFields m outF res)
      else .error .schemaMismatch

/-- Modelled from the spec: the single-field calling convention — when the
input field count is 1 the transform function receives a scalar (not a
one-element tuple) and when the output field count is 1 it returns a scalar
assigned to that one field.  `scalarFn f` is such a 1-to-1 scalar function
lifted to the general tuple interface. -/
def scalarFn (f : Value → Value) : List Value → List Value
  | [v] => [f v]
  | vs => vs

/-- Modelled from the spec: an EntryMapper — a declarative pure rule
`(input fields, output fields, transform function)` scoped to entries. -/
structure EntryMapper where
  input_fields : List String
  output_fields : List String
  func : List Value → List Value

/-- Modelled from the spec: an ObservableMapper — the same rule scoped to
observables, with an optional category filter on the `type` field
(`obs_type`, as in the notebooks). -/
structure ObservableMapper where
  input_fields : List String
  output_fields : List String
  func : List Value → List Value
  obs_type : Option String

/-- Apply an EntryMapper to one Entry: only the open attribute map changes,
never `idx` or `obs_ids`. -/
def EntryMapper.applyTo (mp : EntryMapper) (e : Entry) : Except DatumError Entry :=
  (applyMapperAttrs mp.input_fields mp.output_fields mp.func e.attrs).map
    (fun a => { e with attrs := a })

/-- Whether an Observable matches the Mapper's optional category filter
(its `type` field equals the filter value). -/
def ObservableMapper.matchesFilter (mp : ObservableMapper) (o : Observable) : Bool :=
  match mp.obs_type with
  | none => true
  | some t => getAttr o.attrs "type" == some (Value.vStr t)

/-- Apply an ObservableMapper to one Observable: records it does not match
pass through unchanged; on a match only the open attribute map changes,
never `idx` or `entry_id`. -/
def ObservableMapper.applyTo (mp : ObservableMapper) (o : Observable) :
    Except DatumError Observable :=
  if mp.matchesFilter o then
    (applyMapperAttrs mp.input_fields mp.output_fields mp.func o.attrs).map
      (fun a => { o with attrs := a })
  else .ok o

/-- Apply one fallible record transformation to every record of a table,
in table order, failing as soon as one record fails. -/
def mapTable {α : Type} (f : α → Except DatumError α) : List α → Except DatumError (List α)
  | [] => .ok []
  | x :: xs =>
      match f x with
      | .error er => .error er
      | .ok y =>
          match mapTable f xs with
          | .error er => .error er
          | .ok ys => .ok (y :: ys)

/-- Apply every EntryMapper of the list, in list order, to every Entry:
each Mapper rewrites the whole table before the next Mapper runs. -/
def applyEntryMappers : List EntryMapper → List Entry → Except DatumError (List Entry)
  | [], es => .ok es
  | mp :: mps, es =>
      match mapTable mp.applyTo es with
      | .error er => .error er
      | .ok es' => applyEntryMappers mps es'

/-- Apply every ObservableMapper of the list, in list order, to every
Observable: each Mapper rewrites the whole table before the next one runs. -/
def applyObservableMappers : List ObservableMapper → List Observable →
    Except DatumError (List Observable)
  | [], os => .ok os
  | mp :: mps, os =>
      match mapTable mp.applyTo os with
      | .error er => .error er
      | .ok os' => applyObservableMappers mps os'

/-- Modelled from the spec: an AttributesTransformer — an ordered list of
EntryMappers and an ordered list of ObservableMappers. -/
structure AttributesTransformer where
  entries_mappers : List EntryMapper
  observables_mappers : List ObservableMapper

/-- Modelled from the spec: `transform(store)` applies every EntryMapper, in
list order, to every Entry of the store, then every ObservableMapper, in
list order, to every Observable of the store. -/
def AttributesTransformer.transform (t : AttributesTransformer) (d : Dataset) :
    Except DatumError Dataset :=
  match applyEntryMappers t.entries_mappers d.entries with
  | .error er => .error er
  | .ok es =>
      match applyObservableMappers t.observables_mappers d.observables with
      | .error er => .error er
      | .ok os => .ok { d with entries := es, observables := os }

/-! ## Operation sequences -/

/-- One store mutation call, for reasoning about arbitrary call sequences. -/
inductive Op where
  | addEntry (attrs : AttrMap)
  | addObservable (eid : Nat) (attrs : AttrMap)
  | removeEntry (i : Nat)
  | removeObservable (i : Nat)
  | updateEntryData (i : Nat) (attrs : AttrMap)
deriving Repr

/-- Run one call against the store: a successful call yields the new store,
a failing call reports its error and leaves the store in its pre-call
state (all-or-nothing, as the spec requires). -/
def applyOp (d : Dataset) : Op → Dataset × Option DatumError
  | .addEntry attrs => ((add_entry d attrs).1, none)
  | .addObservable eid attrs =>
      match add_observable d eid attrs with
      | .error er => (d, some er)
      | .ok (d', _) => (d', none)
  | .removeEntry i =>
      match remove_entry d i with
      | .error er => (d, some er)
      | .ok d' => (d', none)
  | .removeObservable i =>
      match remove_observable d i with
      | .error er => (d, some er)
      | .ok d' => (d', none)
  | .updateEntryData i attrs =>
      match update_entry_data d i attrs with
      | .error er => (d, some er)
      | .ok d' => (d', none)

/-- Run a finite sequence of calls, left to right. -/
def runOps (d : Dataset) : List Op → Dataset
  | [] => d
  | op :: ops => runOps (applyOp d op).1 ops

/-! ## Well-formedness -/

/-- The referential-integrity well-formedness of a store: per-kind `idx`
uniqueness, counters bound every assigned `idx`, `obs_ids` lists are
duplicate-free, every `obs_ids` entry names a live Observable owned by that
Entry, and every Observable's `entry_id` names a live Entry listing it. -/
structure WF (d : Dataset) : Prop where
  entriesNodup : (d.entries.map Entry.idx).Nodup
  obsNodup : (d.observables.map Observable.idx).Nodup
  entriesLt : ∀ e ∈ d.entries, e.idx < d.entry_counter
  obsLt : ∀ o ∈ d.observables, o.idx < d.obs_counter
  obsIdsNodup : ∀ e ∈ d.entries, e.obs_ids.Nodup
  link1 : ∀ e ∈ d.entries, ∀ oid ∈ e.obs_ids,
    ∃ o ∈ d.observables, o.idx = oid ∧ o.entry_id = e.idx
  link2 : ∀ o ∈ d.observables, ∃ e ∈ d.entries, e.idx = o.entry_id ∧ o.idx ∈ e.obs_ids

theorem entry_idx_inj {d : Dataset} (h : WF d) {e e' : Entry}
    (he : e ∈ d.entries) (he' : e' ∈ d.entries) (hidx : e.idx = e'.idx) : e = e' :=
  List.inj_on_of_nodup_map h.entriesNodup he he' hidx

theorem obs_idx_inj {d : Dataset} (h : WF d) {o o' : Observable}
    (ho : o ∈ d.observables) (ho' : o' ∈ d.observables) (hidx : o.idx = o'.idx) : o = o' :=
  List.inj_on_of_nodup_map h.obsNodup ho ho' hidx

theorem wf_empty : WF datasetEmpty := by
  constructor <;> simp [datasetEmpty]

theorem wf_add_entry (d : Dataset) (attrs : AttrMap) (h : WF d) :
    WF (add_entry d attrs).1 := by
  constructor
  · simp only [add_entry, List.map_append, List.map_cons, List.map_nil]
    rw [List.nodup_append]
    refine ⟨h.entriesNodup, List.nodup_singleton _, ?_⟩
    intro x hx hx'
    rcases List.mem_map.mp hx with ⟨e, he, rfl⟩
    simp only [List.mem_singleton] at hx'
    exact absurd hx' (Nat.ne_of_lt (h.entriesLt e he))
  · exact h.obsNodup
  · intro e he
    simp only [add_entry, List.mem_append, List.mem_singleton] at he
    rcases he with he | rfl
    · exact Nat.lt_succ_of_lt (h.entriesLt e he)
    · exact Nat.lt_succ_self _
  · exact h.obsLt
  · intro e he
    simp only [add_entry, List.mem_append, List.mem_singleton] at he
    rcases he with he | rfl
    · exact h.obsIdsNodup e he
    · exact List.nodup_nil
  · intro e he oid hoid
    simp only [add_entry, List.mem_append, List.mem_singleton] at he
    rcases he with he | rfl
    · exact h.link1 e he oid hoid
    · simp at hoid
  · intro o ho
    rcases h.link2 o ho with ⟨e, he, hid, hmem⟩
    exact ⟨e, List.mem_append_left _ he, hid, hmem⟩

theorem map_idx_of_preserve (es : List Entry) (g : Entry → Entry)
    (hg : ∀ e, (g e).idx = e.idx) : (es.map g).map Entry.idx = es.map Entry.idx := by
  rw [List.map_map]
  exact List.map_congr_left (fun e _ => hg e)

theorem wf_add_observable_aux (d : Dataset) (eid : Nat) (attrs : AttrMap)
    (h : WF d) (e₀ : Entry) (he₀ : e₀ ∈ d.entries) (hid₀ : e₀.idx = eid) :
    WF { d with
      observables := d.observables ++ [{ idx := d.obs_counter, entry_id := eid, attrs := attrs }],
      entries := d.entries.map (fun e =>
        if e.idx = eid then { e with obs_ids := e.obs_ids ++ [d.obs_counter] } else e),
      obs_counter := d.obs_counter + 1 } := by
  have hgidx : ∀ e : Entry,
      (if e.idx = eid then { e with obs_ids := e.obs_ids ++ [d.obs_counter] } else e).idx
        = e.idx := by
    intro e
    by_cases hc : e.idx = eid <;> simp [hc]
  constructor
  · rw [map_idx_of_preserve _ _ hgidx]
    exact h.entriesNodup
  · simp only [List.map_append, List.map_cons, List.map_nil]
    rw [List.nodup_append]
    refine ⟨h.obsNodup, List.nodup_singleton _, ?_⟩
    intro x hx hx'
    rcases List.mem_map.mp hx with ⟨o, ho, rfl⟩
    simp only [List.mem_singleton] at hx'
    exact absurd hx' (Nat.ne_of_lt (h.obsLt o ho))
  · intro e' he'
    rcases List.mem_map.mp he' with ⟨e, he, rfl⟩
    rw [hgidx]
    exact h.entriesLt e he
  · intro o ho
    simp only [List.mem_append, List.mem_singleton] at ho
    rcases ho with ho | rfl
    · exact Nat.lt_succ_of_lt (h.obsLt o ho)
    · exact Nat.lt_succ_self _
  · intro e' he'
    rcases List.mem_map.mp he' with ⟨e, he, rfl⟩
    by_cases hc : e.idx = eid
    · simp only [if_pos hc]
      rw [List.nodup_append]
      refine ⟨h.obsIdsNodup e he, List.nodup_singleton _, ?_⟩
      intro oid hoid hoid'
      simp only [List.mem_singleton] at hoid'
      rcases h.link1 e he oid hoid with ⟨o, ho, hoidx, _⟩
      exact absurd (hoidx ▸ hoid') (Nat.ne_of_lt (h.obsLt o ho))
    · simp only [if_neg hc]
      exact h.obsIdsNodup e he
  · intro e' he' oid hoid
    rcases List.mem_map.mp he' with ⟨e, he, rfl⟩
    by_cases hc : e.idx = eid
    · simp only [if_pos hc] at hoid ⊢
      rcases List.mem_append.mp hoid with hold | hnew
      · rcases h.link1 e he oid hold with ⟨o, ho, h1, h2⟩
        exact ⟨o, List.mem_append_left _ ho, h1, h2⟩
      · simp only [List.mem_singleton] at hnew
        subst hnew
        refine ⟨_, List.mem_append_right _ (List.mem_singleton_self _), rfl, ?_⟩
        exact hc.symm
    · simp only [if_neg hc] at hoid ⊢
      rcases h.link1 e he oid hoid with ⟨o, ho, h1, h2⟩
      exact ⟨o, List.mem_append_left _ ho, h1, h2⟩
  · intro o ho
    simp only [List.mem_append, List.mem_singleton] at ho
    rcases ho with ho | rfl
    · rcases h.link2 o ho with ⟨e, he, hid, hmem⟩
      refine ⟨_, List.mem_map_of_mem _ he, ?_, ?_⟩
      · rw [hgidx]; exact hid
      · by_cases hc : e.idx = eid
        · simp only [if_pos hc]
          exact List.mem_append_left _ hmem
        · simp only [if_neg hc]
          exact hmem
    · refine ⟨_, List.mem_map_of_mem _ he₀, ?_, ?_⟩
      · simp only [if_pos hid₀]
        exact hid₀
      · simp only [if_pos hid₀]
        exact List.mem_append_right _ (List.mem_singleton_self _)

theorem any_idx_iff (es : List Entry) (i : Nat) :
    es.any (fun e => e.idx == i) = true ↔ ∃ e ∈ es, e.idx = i := by
  simp [List.any_eq_true]

theorem wf_add_observable (d : Dataset) (eid : Nat) (attrs : AttrMap)
    (d' : Dataset) (k : Nat) (h : WF d)
    (hok : add_observable d eid attrs = .ok (d', k)) : WF d' := by
  rw [add_observable] at hok
  by_cases hany : d.entries.any (fun e => e.idx == eid) = true
  · rw [if_pos hany] at hok
    simp only [Except.ok.injEq, Prod.mk.injEq] at hok
    obtain ⟨rfl, rfl⟩ := hok
    rcases (any_idx_iff d.entries eid).mp hany with ⟨e₀, he₀, hid₀⟩
    exact wf_add_observable_aux d eid attrs h e₀ he₀ hid₀
  · rw [if_neg hany] at hok
    exact absurd hok (by simp)

theorem wf_remove_entry_aux (d : Dataset) (i : Nat) (h : WF d) (e₀ : Entry)
    (he₀ : e₀ ∈ d.entries) (hid₀ : e₀.idx = i) :
    WF { d with
      entries := d.entries.filter (fun e' => e'.idx ≠ i),
      observables := d.observables.filter (fun o => o.idx ∉ e₀.obs_ids) } := by
  constructor
  · exact List.Nodup.sublist ((List.filter_sublist _).map _) h.entriesNodup
  · exact List.Nodup.sublist ((List.filter_sublist _).map _) h.obsNodup
  · intro e he
    exact h.entriesLt e (List.mem_of_mem_filter he)
  · intro o ho
    exact h.obsLt o (List.mem_of_mem_filter ho)
  · intro e he
    exact h.obsIdsNodup e (List.mem_of_mem_filter he)
  · intro e' he' oid hoid
    rcases List.mem_filter.mp he' with ⟨he'', hne⟩
    simp only [ne_eq, decide_not, Bool.not_eq_eq_eq_not, Bool.not_true,
      decide_eq_false_iff_not] at hne
    rcases h.link1 e' he'' oid hoid with ⟨o, ho, h1, h2⟩
    refine ⟨o, List.mem_filter.mpr ⟨ho, ?_⟩, h1, h2⟩
    simp only [decide_eq_true_eq]
    intro hmem
    rcases h.link1 e₀ he₀ o.idx hmem with ⟨o₂, ho₂, h1₂, h2₂⟩
    have : o₂ = o := obs_idx_inj h ho₂ ho h1₂
    subst this
    exact hne (by rw [← h2, h2₂, hid₀])
  · intro o ho
    rcases List.mem_filter.mp ho with ⟨ho', hno⟩
    simp only [decide_eq_true_eq] at hno
    rcases h.link2 o ho' with ⟨e, he, hid, hmem⟩
    refine ⟨e, List.mem_filter.mpr ⟨he, ?_⟩, hid, hmem⟩
    simp only [ne_eq, decide_not, Bool.not_eq_eq_eq_not, Bool.not_true,
      decide_eq_false_iff_not]
    intro hei
    have : e = e₀ := entry_idx_inj h he he₀ (by rw [hei, hid₀])
    subst this
    exact hno hmem

theorem wf_remove_entry (d : Dataset) (i : Nat) (d' : Dataset) (h : WF d)
    (hok : remove_entry d i = .ok d') : WF d' := by
  rw [remove_entry] at hok
  cases hfind : d.entries.find? (fun e => e.idx == i) with
  | none => rw [hfind] at hok; exact absurd hok (by simp)
  | some e₀ =>
      rw [hfind] at hok
      simp only [Except.ok.injEq] at hok
      subst hok
      have he₀ : e₀ ∈ d.entries := List.mem_of_find?_eq_some hfind
      have hid₀ : e₀.idx = i := by
        have := List.find?_some hfind
        simpa using this
      exact wf_remove_entry_aux d i h e₀ he₀ hid₀

theorem wf_remove_observable_aux (d : Dataset) (i : Nat) (h : WF d) (o₀ : Observable)
    (ho₀ : o₀ ∈ d.observables) (hid₀ : o₀.idx = i) :
    WF { d with
      observables := d.observables.filter (fun o' => o'.idx ≠ i),
      entries := d.entries.map (fun e =>
        if e.idx = o₀.entry_id then
          { e with obs_ids := e.obs_ids.filter (fun oid => oid ≠ i) } else e) } := by
  have hgidx : ∀ e : Entry,
      (if e.idx = o₀.entry_id then
        { e with obs_ids := e.obs_ids.filter (fun oid => oid ≠ i) } else e).idx = e.idx := by
    intro e
    by_cases hc : e.idx = o₀.entry_id <;> simp [hc]
  constructor
  · rw [map_idx_of_preserve _ _ hgidx]
    exact h.entriesNodup
  · exact List.Nodup.sublist ((List.filter_sublist _).map _) h.obsNodup
  · intro e' he'
    rcases List.mem_map.mp he' with ⟨e, he, rfl⟩
    rw [hgidx]
    exact h.entriesLt e he
  · intro o ho
    exact h.obsLt o (List.mem_of_mem_filter ho)
  · intro e' he'
    rcases List.mem_map.mp he' with ⟨e, he, rfl⟩
    by_cases hc : e.idx = o₀.entry_id
    · simp only [if_pos hc]
      exact List.Nodup.filter _ (h.obsIdsNodup e he)
    · simp only [if_neg hc]
      exact h.obsIdsNodup e he
  · intro e' he' oid hoid
    rcases List.mem_map.mp he' with ⟨e, he, rfl⟩
    by_cases hc : e.idx = o₀.entry_id
    · simp only [if_pos hc] at hoid ⊢
      rcases List.mem_filter.mp hoid with ⟨hoid', hneq⟩
      simp only [ne_eq, decide_not, Bool.not_eq_eq_eq_not, Bool.not_true,
        decide_eq_false_iff_not] at hneq
      rcases h.link1 e he oid hoid' with ⟨o, ho, h1, h2⟩
      refine ⟨o, List.mem_filter.mpr ⟨ho, ?_⟩, h1, h2⟩
      simp only [ne_eq, decide_not, Bool.not_eq_eq_eq_not, Bool.not_true,
        decide_eq_false_iff_not]
      rw [h1]; exact hneq
    · simp only [if_neg hc] at hoid ⊢
      have hne : oid ≠ i := by
        intro hEq
        subst hEq
        rcases h.link1 e he oid hoid with ⟨o₂, ho₂, h1₂, h2₂⟩
        have : o₂ = o₀ := obs_idx_inj h ho₂ ho₀ (by rw [h1₂, hid₀])
        subst this
        exact hc h2₂.symm
      rcases h.link1 e he oid hoid with ⟨o, ho, h1, h2⟩
      refine ⟨o, List.mem_filter.mpr ⟨ho, ?_⟩, h1, h2⟩
      simp only [ne_eq, decide_not, Bool.not_eq_eq_eq_not, Bool.not_true,
        decide_eq_false_iff_not]
      rw [h1]; exact hne
  · intro o ho
    rcases List.mem_filter.mp ho with ⟨ho', hne⟩
    simp only [ne_eq, decide_not, Bool.not_eq_eq_eq_not, Bool.not_true,
      decide_eq_false_iff_not] at hne
    rcases h.link2 o ho' with ⟨e, he, hid, hmem⟩
    refine ⟨_, List.mem_map_of_mem _ he, ?_, ?_⟩
    · rw [hgidx]; exact hid
    · by_cases hc : e.idx = o₀.entry_id
      · simp only [if_pos hc]
        refine List.mem_filter.mpr ⟨hmem, ?_⟩
        simp only [ne_eq, decide_not, Bool.not_eq_eq_eq_not, Bool.not_true,
          decide_eq_false_iff_not]
        exact hne
      · simp only [if_neg hc]
        exact hmem

theorem wf_remove_observable (d : Dataset) (i : Nat) (d' : Dataset) (h : WF d)
    (hok : remove_observable d i = .ok d') : WF d' := by
  rw [remove_observable] at hok
  cases hfind : d.observables.find? (fun o => o.idx == i) with
  | none => rw [hfind] at hok; exact absurd hok (by simp)
  | some o₀ =>
      rw [hfind] at hok
      simp only [Except.ok.injEq] at hok
      subst hok
      have ho₀ : o₀ ∈ d.observables := List.mem_of_find?_eq_some hfind
      have hid₀ : o₀.idx = i := by
        have := List.find?_some hfind
        simpa using this
      exact wf_remove_observable_aux d i h o₀ ho₀ hid₀

theorem wf_map_attrs (d : Dataset) (g : Entry → Entry)
    (hidx : ∀ e, (g e).idx = e.idx) (hobs : ∀ e, (g e).obs_ids = e.obs_ids)
    (h : WF d) : WF { d with entries := d.entries.map g } := by
  constructor
  · rw [map_idx_of_preserve _ _ hidx]
    exact h.entriesNodup
  · exact h.obsNodup
  · intro e' he'
    rcases List.mem_map.mp he' with ⟨e, he, rfl⟩
    rw [hidx]
    exact h.entriesLt e he
  · exact h.obsLt
  · intro e' he'
    rcases List.mem_map.mp he' with ⟨e, he, rfl⟩
    rw [hobs]
    exact h.obsIdsNodup e he
  · intro e' he' oid hoid
    rcases List.mem_map.mp he' with ⟨e, he, rfl⟩
    rw [hobs] at hoid
    rcases h.link1 e he oid hoid with ⟨o, ho, h1, h2⟩
    exact ⟨o, ho, h1, by rw [hidx]; exact h2⟩
  · intro o ho
    rcases h.link2 o ho with ⟨e, he, hid, hmem⟩
    refine ⟨_, List.mem_map_of_mem _ he, ?_, ?_⟩
    · rw [hidx]; exact hid
    · rw [hobs]; exact hmem

theorem wf_update_entry_data (d : Dataset) (i : Nat) (attrs : AttrMap) (d' : Dataset)
    (h : WF d) (hok : update_entry_data d i attrs = .ok d') : WF d' := by
  rw [update_entry_data] at hok
  by_cases hany : d.entries.any (fun e => e.idx == i) = true
  · rw [if_pos hany] at hok
    by_cases hkey : attrs.any (fun kv => kv.1 == "idx" || kv.1 == "obs_ids") = true
    · rw [if_pos hkey] at hok
      exact absurd hok (by simp)
    · rw [if_neg hkey] at hok
      simp only [Except.ok.injEq] at hok
      subst hok
      refine wf_map_attrs d _ ?_ ?_ h
      · intro e
        by_cases hc : e.idx = i <;> simp [hc]
      · intro e
        by_cases hc : e.idx = i <;> simp [hc]
  · rw [if_neg hany] at hok
    exact absurd hok (by simp)

theorem wf_remove_entries_without_obs (d : Dataset) (h : WF d) :
    WF (remove_entries_without_obs d) := by
  constructor
  · exact List.Nodup.sublist ((List.filter_sublist _).map _) h.entriesNodup
  · exact h.obsNodup
  · intro e he
    exact h.entriesLt e (List.mem_of_mem_filter he)
  · exact h.obsLt
  · intro e he
    exact h.obsIdsNodup e (List.mem_of_mem_filter he)
  · intro e he oid hoid
    exact h.link1 e (List.mem_of_mem_filter he) oid hoid
  · intro o ho
    rcases h.link2 o ho with ⟨e, he, hid, hmem⟩
    refine ⟨e, List.mem_filter.mpr ⟨he, ?_⟩, hid, hmem⟩
    simp only [decide_not, Bool.not_eq_eq_eq_not, Bool.not_true, decide_eq_false_iff_not]
    simp [List.isEmpty_iff, List.ne_nil_of_mem hmem]

theorem wf_applyOp (d : Dataset) (op : Op) (h : WF d) : WF (applyOp d op).1 := by
  cases op with
  | addEntry attrs => exact wf_add_entry d attrs h
  | addObservable eid attrs =>
      simp only [applyOp]
      cases hr : add_observable d eid attrs with
      | error er => exact h
      | ok p => exact wf_add_observable d eid attrs p.1 p.2 h (by rw [hr])
  | removeEntry i =>
      simp only [applyOp]
      cases hr : remove_entry d i with
      | error er => exact h
      | ok d' => exact wf_remove_entry d i d' h hr
  | removeObservable i =>
      simp only [applyOp]
      cases hr : remove_observable d i with
      | error er => exact h
      | ok d' => exact wf_remove_observable d i d' h hr
  | updateEntryData i attrs =>
      simp only [applyOp]
      cases hr : update_entry_data d i attrs with
      | error er => exact h
      | ok d' => exact wf_update_entry_data d i attrs d' h hr

theorem wf_runOps (d : Dataset) (ops : List Op) (h : WF d) : WF (runOps d ops) := by
  induction ops generalizing d with
  | nil => exact h
  | cons op ops ih => exact ih _ (wf_applyOp d op h)

/-! ## Counting helpers -/

theorem length_filter_comp {α β : Type} (f : α → β) (q : β → Bool) (l : List α) :
    (l.filter (fun a => q (f a))).length = ((l.map f).filter q).length := by
  induction l with
  | nil => rfl
  | cons x xs ih =>
      simp only [List.filter_cons, List.map_cons]
      cases q (f x) <;> simp [ih]

theorem length_filter_ne (xs : List Nat) (i : Nat) (hnd : xs.Nodup) (hmem : i ∈ xs) :
    (xs.filter (fun x => x ≠ i)).length + 1 = xs.length := by
  induction xs with
  | nil => cases hmem
  | cons x xs ih =>
      rcases List.mem_cons.mp hmem with rfl | hmem'
      · have hni : i ∉ xs := (List.nodup_cons.mp hnd).1
        rw [List.filter_cons_of_neg (by simp)]
        have hself : xs.filter (fun x => x ≠ i) = xs := by
          apply List.filter_eq_self.mpr
          intro a ha
          simp only [ne_eq, decide_not, Bool.not_eq_eq_eq_not, Bool.not_true,
            decide_eq_false_iff_not]
          intro hEq
          exact hni (hEq ▸ ha)
        rw [hself, List.length_cons]
      · have hxi : x ≠ i := by
          intro hEq
          exact (List.nodup_cons.mp hnd).1 (hEq ▸ hmem')
        rw [List.filter_cons_of_pos (by simpa using hxi)]
        have hrest := ih (List.nodup_cons.mp hnd).2 hmem'
        simp only [List.length_cons]
        omega

theorem length_filter_not_mem (ys ids : List Nat) (hys : ys.Nodup) (hids : ids.Nodup)
    (hsub : ∀ x ∈ ids, x ∈ ys) :
    (ys.filter (fun y => y ∉ ids)).length + ids.length = ys.length := by
  have hperm : (ys.filter (fun y => y ∈ ids)).Perm ids := by
    refine (List.perm_ext_iff_of_nodup (List.Nodup.filter _ hys) hids).mpr ?_
    intro x
    simp only [List.mem_filter, decide_eq_true_eq]
    constructor
    · rintro ⟨_, hx⟩; exact hx
    · intro hx; exact ⟨hsub x hx, hx⟩
  have hlen : (ys.filter (fun y => y ∈ ids)).length = ids.length := hperm.length_eq
  have hsplit := List.length_eq_length_filter_add (l := ys) (fun y => decide (y ∈ ids))
  have hnotc : (ys.filter (fun y => !decide (y ∈ ids))) = ys.filter (fun y => y ∉ ids) := by
    apply List.filter_congr
    intro y _
    simp
  rw [hnotc] at hsplit
  omega

/-! ## Claim C1 -/

/-- The referential-integrity invariant exactly as the specification states
it: every id in every Entry's `obs_ids` names a live Observable whose
`entry_id` equals that Entry's `idx` and which appears in that `obs_ids`
exactly once, and no Observable exists whose `entry_id` is not a live
Entry's `idx`. -/
def InvC1 (d : Dataset) : Prop :=
  (∀ e ∈ d.entries, ∀ oid ∈ e.obs_ids,
    (∃ o ∈ d.observables, o.idx = oid ∧ o.entry_id = e.idx) ∧ e.obs_ids.count oid = 1)
  ∧ (∀ o ∈ d.observables, ∃ e ∈ d.entries, e.idx = o.entry_id)

theorem inv_of_wf (d : Dataset) (h : WF d) : InvC1 d := by
  constructor
  · intro e he oid hoid
    exact ⟨h.link1 e he oid hoid, List.count_eq_one_of_mem (h.obsIdsNodup e he) hoid⟩
  · intro o ho
    rcases h.link2 o ho with ⟨e, he, hid, _⟩
    exact ⟨e, he, hid⟩

/-- C1: starting from the empty store, after every finite sequence of
`add_entry`, `add_observable`, `remove_entry`, `remove_observable` and
`update_entry_data` calls (failing calls leaving the store unchanged), the
referential-integrity invariant holds — and hence it holds after each
successful call of any such sequence. -/
theorem C1_invariant_preservation (ops : List Op) :
    InvC1 (runOps datasetEmpty ops) :=
  inv_of_wf _ (wf_runOps _ ops wf_empty)

/-! ## Claim C2 -/

/-- C2: for every well-formed store and live Entry `e`, `remove_entry e.idx`
succeeds, deletes `e` and every Observable whose idx is in `e.obs_ids`,
decreases the number of live Entries by exactly 1 and the number of live
Observables by exactly `e.obs_ids.length`. -/
theorem C2_cascade_delete (d : Dataset) (e : Entry) (h : WF d) (he : e ∈ d.entries) :
    ∃ d', remove_entry d e.idx = .ok d'
      ∧ (∀ e' ∈ d'.entries, e'.idx ≠ e.idx)
      ∧ (∀ o ∈ d'.observables, o.idx ∉ e.obs_ids)
      ∧ d'.entries.length + 1 = d.entries.length
      ∧ d'.observables.length + e.obs_ids.length = d.observables.length := by
  have hsome : (d.entries.find? (fun e' => e'.idx == e.idx)).isSome := by
    rw [List.find?_isSome]
    exact ⟨e, he, by simp⟩
  cases hfind : d.entries.find? (fun e' => e'.idx == e.idx) with
  | none => rw [hfind] at hsome; cases hsome
  | some e₁ =>
      have he₁ : e₁ ∈ d.entries := List.mem_of_find?_eq_some hfind
      have hidx₁ : e₁.idx = e.idx := by
        have := List.find?_some hfind
        simpa using this
      have heq : e₁ = e := entry_idx_inj h he₁ he hidx₁
      subst heq
      refine ⟨_, by rw [remove_entry, hfind], ?_, ?_, ?_, ?_⟩
      · intro e' he'
        rcases List.mem_filter.mp he' with ⟨_, hp⟩
        simpa using hp
      · intro o ho
        rcases List.mem_filter.mp ho with ⟨_, hp⟩
        simpa using hp
      · have hc := length_filter_comp Entry.idx (fun x => decide (x ≠ e₁.idx)) d.entries
        simp only [hc]
        have hl := length_filter_ne _ _ h.entriesNodup (List.mem_map_of_mem Entry.idx he)
        simpa using hl
      · have hc := length_filter_comp Observable.idx
          (fun x => decide (x ∉ e₁.obs_ids)) d.observables
        simp only [hc]
        have hl := length_filter_not_mem (d.observables.map Observable.idx) e₁.obs_ids
          h.obsNodup (h.obsIdsNodup _ he) ?_
        · simpa using hl
        · intro x hx
          rcases h.link1 _ he x hx with ⟨o, ho, hoidx, _⟩
          exact hoidx ▸ List.mem_map_of_mem _ ho

/-- A concrete store: one entry owning two observables. -/
def d2w : Dataset :=
  { entries := [{ idx := 0, obs_ids := [0, 1], attrs := [] }],
    observables := [{ idx := 0, entry_id := 0, attrs := [] },
                    { idx := 1, entry_id := 0, attrs := [] }],
    entry_counter := 1, obs_counter := 2 }

/-- The entry of `d2w`, owning observables 0 and 1. -/
def e2w : Entry := { idx := 0, obs_ids := [0, 1], attrs := [] }

theorem wf_d2w : WF d2w :=
  ⟨by decide, by decide, by decide, by decide, by decide, by decide, by decide⟩

/-- Witness for C2 at a concrete store whose single entry owns exactly the
two observables 0 and 1. -/
theorem C2_cascade_delete_witness :
    WF d2w ∧ e2w ∈ d2w.entries ∧
      (∃ d', remove_entry d2w e2w.idx = .ok d'
        ∧ (∀ e' ∈ d'.entries, e'.idx ≠ e2w.idx)
        ∧ (∀ o ∈ d'.observables, o.idx ∉ e2w.obs_ids)
        ∧ d'.entries.length + 1 = d2w.entries.length
        ∧ d'.observables.length + e2w.obs_ids.length = d2w.observables.length) :=
  ⟨wf_d2w, by decide, C2_cascade_delete d2w e2w wf_d2w (by decide)⟩

/-! ## Counter behaviour of the operations -/

theorem add_entry_counters (d : Dataset) (attrs : AttrMap) :
    (add_entry d attrs).2 = d.entry_counter
    ∧ (add_entry d attrs).1.entry_counter = d.entry_counter + 1
    ∧ (add_entry d attrs).1.obs_counter = d.obs_counter :=
  ⟨rfl, rfl, rfl⟩

theorem add_observable_counters (d : Dataset) (eid : Nat) (attrs : AttrMap)
    (d' : Dataset) (k : Nat) (hok : add_observable d eid attrs = .ok (d', k)) :
    k = d.obs_counter ∧ d'.obs_counter = d.obs_counter + 1
    ∧ d'.entry_counter = d.entry_counter := by
  rw [add_observable] at hok
  by_cases hany : d.entries.any (fun e => e.idx == eid) = true
  · rw [if_pos hany] at hok
    simp only [Except.ok.injEq, Prod.mk.injEq] at hok
    obtain ⟨rfl, rfl⟩ := hok
    exact ⟨rfl, rfl, rfl⟩
  · rw [if_neg hany] at hok
    exact absurd hok (by simp)

theorem remove_entry_counters (d : Dataset) (i : Nat) (d' : Dataset)
    (hok : remove_entry d i = .ok d') :
    d'.entry_counter = d.entry_counter ∧ d'.obs_counter = d.obs_counter := by
  rw [remove_entry] at hok
  cases hfind : d.entries.find? (fun e => e.idx == i) with
  | none => rw [hfind] at hok; exact absurd hok (by simp)
  | some e₀ =>
      rw [hfind] at hok
      simp only [Except.ok.injEq] at hok
      subst hok
      exact ⟨rfl, rfl⟩

theorem remove_observable_counters (d : Dataset) (i : Nat) (d' : Dataset)
    (hok : remove_observable d i = .ok d') :
    d'.entry_counter = d.entry_counter ∧ d'.obs_counter = d.obs_counter := by
  rw [remove_observable] at hok
  cases hfind : d.observables.find? (fun o => o.idx == i) with
  | none => rw [hfind] at hok; exact absurd hok (by simp)
  | some o₀ =>
      rw [hfind] at hok
      simp only [Except.ok.injEq] at hok
      subst hok
      exact ⟨rfl, rfl⟩

theorem update_entry_data_counters (d : Dataset) (i : Nat) (attrs : AttrMap)
    (d' : Dataset) (hok : update_entry_data d i attrs = .ok d') :
    d'.entry_counter = d.entry_counter ∧ d'.obs_counter = d.obs_counter := by
  rw [update_entry_data] at hok
  by_cases hany : d.entries.any (fun e => e.idx == i) = true
  · rw [if_pos hany] at hok
    by_cases hkey : attrs.any (fun kv => kv.1 == "idx" || kv.1 == "obs_ids") = true
    · rw [if_pos hkey] at hok
      exact absurd hok (by simp)
    · rw [if_neg hkey] at hok
      simp only [Except.ok.injEq] at hok
      subst hok
      exact ⟨rfl, rfl⟩
  · rw [if_neg hany] at hok
    exact absurd hok (by simp)

theorem applyOp_counters_le (d : Dataset) (op : Op) :
    d.entry_counter ≤ (applyOp d op).1.entry_counter
    ∧ d.obs_counter ≤ (applyOp d op).1.obs_counter := by
  cases op with
  | addEntry attrs => exact ⟨Nat.le_succ _, Nat.le_refl _⟩
  | addObservable eid attrs =>
      simp only [applyOp]
      cases hr : add_observable d eid attrs with
      | error er => exact ⟨Nat.le_refl _, Nat.le_refl _⟩
      | ok p =>
          obtain ⟨d', k⟩ := p
          rcases add_observable_counters d eid attrs d' k hr with ⟨_, h2, h3⟩
          constructor
          · show d.entry_counter ≤ d'.entry_counter
            omega
          · show d.obs_counter ≤ d'.obs_counter
            omega
  | removeEntry i =>
      simp only [applyOp]
      cases hr : remove_entry d i with
      | error er => exact ⟨Nat.le_refl _, Nat.le_refl _⟩
      | ok d' =>
          rcases remove_entry_counters d i d' hr with ⟨h1, h2⟩
          exact ⟨Nat.le_of_eq h1.symm, Nat.le_of_eq h2.symm⟩
  | removeObservable i =>
      simp only [applyOp]
      cases hr : remove_observable d i with
      | error er => exact ⟨Nat.le_refl _, Nat.le_refl _⟩
      | ok d' =>
          rcases remove_observable_counters d i d' hr with ⟨h1, h2⟩
          exact ⟨Nat.le_of_eq h1.symm, Nat.le_of_eq h2.symm⟩
  | updateEntryData i attrs =>
      simp only [applyOp]
      cases hr : update_entry_data d i attrs with
      | error er => exact ⟨Nat.le_refl _, Nat.le_refl _⟩
      | ok d' =>
          rcases update_entry_data_counters d i attrs d' hr with ⟨h1, h2⟩
          exact ⟨Nat.le_of_eq h1.symm, Nat.le_of_eq h2.symm⟩

theorem runOps_counters_le (d : Dataset) (ops : List Op) :
    d.entry_counter ≤ (runOps d ops).entry_counter
    ∧ d.obs_counter ≤ (runOps d ops).obs_counter := by
  induction ops generalizing d with
  | nil => exact ⟨Nat.le_refl _, Nat.le_refl _⟩
  | cons op ops ih =>
      rcases applyOp_counters_le d op with ⟨h1, h2⟩
      rcases ih (applyOp d op).1 with ⟨h3, h4⟩
      exact ⟨Nat.le_trans h1 h3, Nat.le_trans h2 h4⟩

/-! ## Claim C8 -/

/-- C8: idx values returned by successive `add_entry` calls are strictly
increasing over the store's lifetime, and so are those returned by
`add_observable`, even with arbitrary intervening operations (including
removals); and a once-assigned idx of either kind is never reassigned:
every later assignment is strictly larger than every live idx. -/
theorem C8_counter_monotonicity :
    (∀ (d : Dataset) (ops : List Op) (a1 a2 : AttrMap),
      (add_entry d a1).2 < (add_entry (runOps (add_entry d a1).1 ops) a2).2)
    ∧ (∀ (d : Dataset) (ops : List Op) (e1 e2 : Nat) (a1 a2 : AttrMap)
        (d1 d2 : Dataset) (k1 k2 : Nat),
        add_observable d e1 a1 = .ok (d1, k1) →
        add_observable (runOps d1 ops) e2 a2 = .ok (d2, k2) →
        k1 < k2)
    ∧ (∀ (d : Dataset) (ops : List Op) (a : AttrMap),
        WF d → ∀ e' ∈ d.entries, e'.idx < (add_entry (runOps d ops) a).2)
    ∧ (∀ (d : Dataset) (ops : List Op) (eid : Nat) (a : AttrMap)
        (d' : Dataset) (k : Nat),
        WF d → add_observable (runOps d ops) eid a = .ok (d', k) →
        ∀ o' ∈ d.observables, o'.idx < k) := by
  refine ⟨?_, ?_, ?_, ?_⟩
  · intro d ops a1 a2
    have h1 := (runOps_counters_le (add_entry d a1).1 ops).1
    show d.entry_counter < (runOps (add_entry d a1).1 ops).entry_counter
    have h2 : (add_entry d a1).1.entry_counter = d.entry_counter + 1 := rfl
    omega
  · intro d ops e1 e2 a1 a2 d1 d2 k1 k2 h1 h2
    rcases add_observable_counters d e1 a1 d1 k1 h1 with ⟨hk1, hc1, _⟩
    rcases add_observable_counters (runOps d1 ops) e2 a2 d2 k2 h2 with ⟨hk2, _, _⟩
    have h3 := (runOps_counters_le d1 ops).2
    omega
  · intro d ops a h e' he'
    have h1 := h.entriesLt e' he'
    have h2 := (runOps_counters_le d ops).1
    show e'.idx < (runOps d ops).entry_counter
    omega
  · intro d ops eid a d' k h hok o' ho'
    rcases add_observable_counters (runOps d ops) eid a d' k hok with ⟨hk, _, _⟩
    have h1 := h.obsLt o' ho'
    have h2 := (runOps_counters_le d ops).2
    omega

/-- The store `d2w` after one more observable on entry 0. -/
def d8a : Dataset :=
  { entries := [{ idx := 0, obs_ids := [0, 1, 2], attrs := [] }],
    observables := [{ idx := 0, entry_id := 0, attrs := [] },
                    { idx := 1, entry_id := 0, attrs := [] },
                    { idx := 2, entry_id := 0, attrs := [] }],
    entry_counter := 1, obs_counter := 3 }

/-- The store `d8a` after one more observable on entry 0. -/
def d8b : Dataset :=
  { entries := [{ idx := 0, obs_ids := [0, 1, 2, 3], attrs := [] }],
    observables := [{ idx := 0, entry_id := 0, attrs := [] },
                    { idx := 1, entry_id := 0, attrs := [] },
                    { idx := 2, entry_id := 0, attrs := [] },
                    { idx := 3, entry_id := 0, attrs := [] }],
    entry_counter := 1, obs_counter := 4 }

/-- Witness for C8 at the concrete store `d2w`. -/
theorem C8_counter_monotonicity_witness :
    add_observable d2w 0 [] = .ok (d8a, 2)
    ∧ add_observable (runOps d8a []) 0 [] = .ok (d8b, 3)
    ∧ (2 : Nat) < 3
    ∧ WF d2w
    ∧ (∀ e' ∈ d2w.entries, e'.idx < (add_entry (runOps d2w [Op.removeObservable 0]) []).2)
    ∧ (∀ o' ∈ d2w.observables, o'.idx < 2) := by
  refine ⟨by rfl, by rfl, ?_, wf_d2w, ?_, ?_⟩
  · exact C8_counter_monotonicity.2.1 d2w [] 0 0 [] [] d8a d8b 2 3 (by rfl) (by rfl)
  · exact C8_counter_monotonicity.2.2.1 d2w [Op.removeObservable 0] [] wf_d2w
  · exact C8_counter_monotonicity.2.2.2 d2w [] 0 [] d8a 2 wf_d2w (by rfl)

/-! ## Claim C3 -/

theorem merge_entries_nodup (a b : Dataset) (ha : WF a) (hb : WF b) :
    ((merge a b).entries.map Entry.idx).Nodup := by
  simp only [merge, List.map_append, List.map_map]
  rw [List.nodup_append]
  refine ⟨ha.entriesNodup, ?_, ?_⟩
  · have : (Entry.idx ∘ shiftEntry a.entry_counter a.obs_counter)
        = (fun x => x + a.entry_counter) ∘ Entry.idx := by
      funext e
      simp [shiftEntry, Function.comp]
    rw [this, ← List.map_map]
    refine List.Nodup.map ?_ hb.entriesNodup
    intro x y hxy
    have hxy' : x + a.entry_counter = y + a.entry_counter := hxy
    omega
  · intro x hx hx'
    rcases List.mem_map.mp hx with ⟨e, he, rfl⟩
    rcases List.mem_map.mp hx' with ⟨e', he', hEq⟩
    have h1 : e.idx < a.entry_counter := ha.entriesLt e he
    have h2 : e'.idx + a.entry_counter = e.idx := hEq
    omega

theorem merge_obs_resolve (a b : Dataset) (ha : WF a) (hb : WF b) :
    ∀ o ∈ (merge a b).observables, ∃ e ∈ (merge a b).entries,
      e.idx = o.entry_id ∧ o.idx ∈ e.obs_ids := by
  intro o ho
  simp only [merge, List.mem_append] at ho
  rcases ho with ho | ho
  · rcases ha.link2 o ho with ⟨e, he, hid, hmem⟩
    exact ⟨e, List.mem_append_left _ he, hid, hmem⟩
  · rcases List.mem_map.mp ho with ⟨o₀, ho₀, rfl⟩
    rcases hb.link2 o₀ ho₀ with ⟨e₀, he₀, hid₀, hmem₀⟩
    refine ⟨shiftEntry a.entry_counter a.obs_counter e₀,
      List.mem_append_right _ (List.mem_map_of_mem _ he₀), ?_, ?_⟩
    · show e₀.idx + a.entry_counter = o₀.entry_id + a.entry_counter
      omega
    · show o₀.idx + a.obs_counter ∈ e₀.obs_ids.map (fun oid => oid + a.obs_counter)
      exact List.mem_map_of_mem _ hmem₀

/-- C3: for well-formed stores `a` and `b`, `merge a b` is a new store whose
length is `a.length + b.length`, whose Entry idx values have no duplicates,
in which every Observable's `entry_id` resolves to a live Entry (the copied
`b` portion staying internally consistent after the per-kind shift, which
leaves all non-structural attributes untouched), and whose entry table is
`a`'s entries in original order followed by `b`'s entries, shifted, in their
original relative order.  (`merge` builds a new `Dataset` value and leaves
both inputs untouched: it is a pure function.) -/
theorem C3_merge_additivity (a b : Dataset) (ha : WF a) (hb : WF b) :
    (merge a b).length = a.length + b.length
    ∧ ((merge a b).entries.map Entry.idx).Nodup
    ∧ (∀ o ∈ (merge a b).observables, ∃ e ∈ (merge a b).entries, e.idx = o.entry_id)
    ∧ (merge a b).entries
        = a.entries ++ b.entries.map (shiftEntry a.entry_counter a.obs_counter)
    ∧ (∀ e : Entry, (shiftEntry a.entry_counter a.obs_counter e).attrs = e.attrs) := by
  refine ⟨?_, merge_entries_nodup a b ha hb, ?_, rfl, fun e => rfl⟩
  · simp [merge, Dataset.length]
  · intro o ho
    rcases merge_obs_resolve a b ha hb o ho with ⟨e, he, hid, _⟩
    exact ⟨e, he, hid⟩

/-- A second concrete store, to merge with `d2w`. -/
def dB : Dataset :=
  { entries := [{ idx := 0, obs_ids := [0], attrs := [] }],
    observables := [{ idx := 0, entry_id := 0, attrs := [] }],
    entry_counter := 1, obs_counter := 1 }

theorem wf_dB : WF dB :=
  ⟨by decide, by decide, by decide, by decide, by decide, by decide, by decide⟩

/-- Witness for C3 at the concrete stores `d2w` and `dB`. -/
theorem C3_merge_additivity_witness :
    WF d2w ∧ WF dB ∧
      ((merge d2w dB).length = d2w.length + dB.length
      ∧ ((merge d2w dB).entries.map Entry.idx).Nodup
      ∧ (∀ o ∈ (merge d2w dB).observables, ∃ e ∈ (merge d2w dB).entries, e.idx = o.entry_id)
      ∧ (merge d2w dB).entries
          = d2w.entries ++ dB.entries.map (shiftEntry d2w.entry_counter d2w.obs_counter)
      ∧ (∀ e : Entry, (shiftEntry d2w.entry_counter d2w.obs_counter e).attrs = e.attrs)) :=
  ⟨wf_d2w, wf_dB, C3_merge_additivity d2w dB wf_d2w wf_dB⟩

/-! ## Claim C10 -/

/-- C10 as stated is false on the model: in `merge`, the `obs_ids` entries of
`b`'s entries are shifted by the observable offset, not by the entry offset.
At `a = d2w` (entry offset 1, observable offset 2) and `b = dB` (one entry
with `obs_ids = [0]`), the merged second entry has `obs_ids = [2]`, not
`[0 + 1]`. -/
theorem C10_counterexample :
    d2w.entry_counter = 1 ∧ d2w.obs_counter = 2
    ∧ dB.entries.map Entry.obs_ids = [[0]]
    ∧ (merge d2w dB).entries.map Entry.obs_ids = [[0, 1], [2]]
    ∧ ¬ ((merge d2w dB).entries.map Entry.obs_ids
          = [[0, 1], [0 + d2w.entry_counter]]) := by
  refine ⟨rfl, rfl, rfl, rfl, ?_⟩
  decide

/-- C10 (amended): Entry and Observable idx values come from two independent
per-kind counters, and `merge` shifts `b`'s records with two independent
per-kind offsets — entry idx values and `entry_id` references by the entry
offset, observable idx values and `obs_ids` entries by the observable
offset — so every `entry_id` in the copied portion still names the owning
Entry. -/
theorem C10_merge_per_kind_offsets (a b : Dataset) (ha : WF a) (hb : WF b) :
    (∀ attrs, (add_entry a attrs).2 = a.entry_counter
      ∧ (add_entry a attrs).1.obs_counter = a.obs_counter)
    ∧ (∀ eid attrs d' k, add_observable a eid attrs = .ok (d', k) →
        k = a.obs_counter ∧ d'.entry_counter = a.entry_counter)
    ∧ (merge a b).entries
        = a.entries ++ b.entries.map (shiftEntry a.entry_counter a.obs_counter)
    ∧ (merge a b).observables
        = a.observables ++ b.observables.map (shiftObs a.entry_counter a.obs_counter)
    ∧ (∀ e : Entry, (shiftEntry a.entry_counter a.obs_counter e).idx
          = e.idx + a.entry_counter
        ∧ (shiftEntry a.entry_counter a.obs_counter e).obs_ids
          = e.obs_ids.map (fun x => x + a.obs_counter))
    ∧ (∀ o : Observable, (shiftObs a.entry_counter a.obs_counter o).idx
          = o.idx + a.obs_counter
        ∧ (shiftObs a.entry_counter a.obs_counter o).entry_id
          = o.entry_id + a.entry_counter)
    ∧ (∀ o ∈ (merge a b).observables, ∃ e ∈ (merge a b).entries,
        e.idx = o.entry_id ∧ o.idx ∈ e.obs_ids) := by
  refine ⟨fun attrs => ⟨rfl, rfl⟩, ?_, rfl, rfl, fun e => ⟨rfl, rfl⟩,
    fun o => ⟨rfl, rfl⟩, merge_obs_resolve a b ha hb⟩
  intro eid attrs d' k hok
  rcases add_observable_counters a eid attrs d' k hok with ⟨h1, _, h3⟩
  exact ⟨h1, h3⟩

/-- Witness for the amended C10 at the concrete stores `d2w` and `dB`. -/
theorem C10_merge_per_kind_offsets_witness :
    WF d2w ∧ WF dB ∧
      ((merge d2w dB).entries
          = d2w.entries ++ dB.entries.map (shiftEntry d2w.entry_counter d2w.obs_counter)
      ∧ (∀ o ∈ (merge d2w dB).observables, ∃ e ∈ (merge d2w dB).entries,
          e.idx = o.entry_id ∧ o.idx ∈ e.obs_ids)) :=
  ⟨wf_d2w, wf_dB,
    (C10_merge_per_kind_offsets d2w dB wf_d2w wf_dB).2.2.1,
    (C10_merge_per_kind_offsets d2w dB wf_d2w wf_dB).2.2.2.2.2.2⟩

/-! ## Claim C9 -/

/-- Attributes of the scenario's entry. -/
def c9attrsE : AttrMap :=
  [("filename", .vStr "a.jpg"), ("width", .vInt 100), ("height", .vInt 50)]

/-- Attributes of the scenario's observable. -/
def c9attrsO : AttrMap :=
  [("type", .vStr "object"), ("name", .vStr "cat"),
   ("xmin", .vInt 1), ("ymin", .vInt 1), ("xmax", .vInt 10), ("ymax", .vInt 10)]

/-- The store after `add_entry`. -/
def c9d1 : Dataset :=
  { entries := [{ idx := 0, obs_ids := [], attrs := c9attrsE }],
    observables := [], entry_counter := 1, obs_counter := 0 }

/-- The store after `add_observable`. -/
def c9d2 : Dataset :=
  { entries := [{ idx := 0, obs_ids := [0], attrs := c9attrsE }],
    observables := [{ idx := 0, entry_id := 0, attrs := c9attrsO }],
    entry_counter := 1, obs_counter := 1 }

/-- The store after `remove_observable`. -/
def c9d3 : Dataset :=
  { entries := [{ idx := 0, obs_ids := [], attrs := c9attrsE }],
    observables := [], entry_counter := 1, obs_counter := 1 }

/-- C9: the end-to-end scenario — from the empty store, `add_entry` returns
idx 0; `add_observable 0` returns idx 0; `store[0]` is the entry with
`obs_ids = [0]` plus the one-element observable list; `remove_observable 0`
succeeds, after which `store[0]` is the entry with `obs_ids = []` and an
empty observable list; `remove_entries_without_obs` then empties the store. -/
theorem C9_end_to_end :
    add_entry datasetEmpty c9attrsE = (c9d1, 0)
    ∧ add_observable c9d1 0 c9attrsO = .ok (c9d2, 0)
    ∧ get_entry c9d2 0
        = .ok ({ idx := 0, obs_ids := [0], attrs := c9attrsE },
               [{ idx := 0, entry_id := 0, attrs := c9attrsO }])
    ∧ remove_observable c9d2 0 = .ok c9d3
    ∧ get_entry c9d3 0 = .ok ({ idx := 0, obs_ids := [], attrs := c9attrsE }, [])
    ∧ (remove_entries_without_obs c9d3).length = 0 :=
  ⟨rfl, rfl, rfl, rfl, rfl, rfl⟩

/-! ## Pointwise behaviour of table rewrites -/

theorem mapTable_forall2 {α : Type} (f : α → Except DatumError α) (P : α → α → Prop)
    (hf : ∀ x y, f x = .ok y → P x y) :
    ∀ (xs ys : List α), mapTable f xs = .ok ys → List.Forall₂ P xs ys := by
  intro xs
  induction xs with
  | nil =>
      intro ys h
      simp only [mapTable, Except.ok.injEq] at h
      subst h
      exact List.Forall₂.nil
  | cons x xs ih =>
      intro ys h
      rw [mapTable] at h
      cases hfx : f x with
      | error er => rw [hfx] at h; exact absurd h (by simp)
      | ok y =>
          rw [hfx] at h
          cases hrest : mapTable f xs with
          | error er => rw [hrest] at h; exact absurd h (by simp)
          | ok ys' =>
              rw [hrest] at h
              simp only [Except.ok.injEq] at h
              subst h
              exact List.Forall₂.cons (hf x y hfx) (ih ys' hrest)

theorem entryMapper_applyTo_frame (mp : EntryMapper) (e e' : Entry)
    (h : mp.applyTo e = .ok e') : e'.idx = e.idx ∧ e'.obs_ids = e.obs_ids := by
  rw [EntryMapper.applyTo] at h
  cases hm : applyMapperAttrs mp.input_fields mp.output_fields mp.func e.attrs with
  | error er => rw [hm] at h; exact absurd h (by simp [Except.map])
  | ok a =>
      rw [hm] at h
      simp only [Except.map, Except.ok.injEq] at h
      subst h
      exact ⟨rfl, rfl⟩

theorem obsMapper_applyTo_skip (mp : ObservableMapper) (o : Observable)
    (hno : mp.matchesFilter o = false) : mp.applyTo o = .ok o := by
  rw [ObservableMapper.applyTo, if_neg (by simp [hno])]

theorem obsMapper_applyTo_frame (mp : ObservableMapper) (o o' : Observable)
    (h : mp.applyTo o = .ok o') :
    o'.idx = o.idx ∧ o'.entry_id = o.entry_id
    ∧ (mp.matchesFilter o = false → o' = o) := by
  rw [ObservableMapper.applyTo] at h
  by_cases hm : mp.matchesFilter o = true
  · rw [if_pos hm] at h
    cases ha : applyMapperAttrs mp.input_fields mp.output_fields mp.func o.attrs with
    | error er => rw [ha] at h; exact absurd h (by simp [Except.map])
    | ok a =>
        rw [ha] at h
        simp only [Except.map, Except.ok.injEq] at h
        subst h
        exact ⟨rfl, rfl, fun hno => absurd hm (by simp [hno])⟩
  · rw [if_neg hm] at h
    simp only [Except.ok.injEq] at h
    subst h
    exact ⟨rfl, rfl, fun _ => rfl⟩

/-- Inversion of a single-EntryMapper transformer run. -/
theorem transform_single_entry_mapper (mp : EntryMapper) (d d' : Dataset)
    (h : (AttributesTransformer.mk [mp] []).transform d = .ok d') :
    ∃ es, mapTable mp.applyTo d.entries = .ok es
      ∧ d' = { d with entries := es } := by
  rw [AttributesTransformer.transform] at h
  cases hm : applyEntryMappers [mp] d.entries with
  | error er => rw [hm] at h; exact absurd h (by simp)
  | ok es =>
      rw [hm] at h
      simp only [applyObservableMappers, Except.ok.injEq] at h
      subst h
      rw [applyEntryMappers] at hm
      cases hmt : mapTable mp.applyTo d.entries with
      | error er => rw [hmt] at hm; exact absurd hm (by simp)
      | ok es' =>
          rw [hmt] at hm
          simp only [applyEntryMappers, Except.ok.injEq] at hm
          subst hm
          exact ⟨es', rfl, rfl⟩

/-- Inversion of a single-ObservableMapper transformer run. -/
theorem transform_single_obs_mapper (mp : ObservableMapper) (d d' : Dataset)
    (h : (AttributesTransformer.mk [] [mp]).transform d = .ok d') :
    ∃ os, mapTable mp.applyTo d.observables = .ok os
      ∧ d' = { d with observables := os } := by
  rw [AttributesTransformer.transform] at h
  simp only [applyEntryMappers] at h
  cases hm : applyObservableMappers [mp] d.observables with
  | error er => rw [hm] at h; exact absurd h (by simp)
  | ok os =>
      rw [hm] at h
      simp only [Except.ok.injEq] at h
      subst h
      rw [applyObservableMappers] at hm
      cases hmt : mapTable mp.applyTo d.observables with
      | error er => rw [hmt] at hm; exact absurd hm (by simp)
      | ok os' =>
          rw [hmt] at hm
          simp only [applyObservableMappers, Except.ok.injEq] at hm
          subst hm
          exact ⟨os', rfl, rfl⟩

/-! ## Claim C6 -/

/-- C6: a Mapper applied to a store never adds or removes records of either
kind, never changes `idx`, `obs_ids` or `entry_id`, does not raise for
records it does not match, and passes filtered-out records through entirely
unchanged. -/
theorem C6_mapper_frame :
    (∀ (mp : EntryMapper) (d d' : Dataset),
      (AttributesTransformer.mk [mp] []).transform d = .ok d' →
        d'.observables = d.observables
        ∧ d'.entries.length = d.entries.length
        ∧ List.Forall₂ (fun e e' => e'.idx = e.idx ∧ e'.obs_ids = e.obs_ids)
            d.entries d'.entries)
    ∧ (∀ (mp : ObservableMapper) (d d' : Dataset),
      (AttributesTransformer.mk [] [mp]).transform d = .ok d' →
        d'.entries = d.entries
        ∧ d'.observables.length = d.observables.length
        ∧ List.Forall₂ (fun o o' => o'.idx = o.idx ∧ o'.entry_id = o.entry_id
            ∧ (mp.matchesFilter o = false → o' = o)) d.observables d'.observables)
    ∧ (∀ (mp : ObservableMapper) (o : Observable),
        mp.matchesFilter o = false → mp.applyTo o = .ok o) := by
  refine ⟨?_, ?_, obsMapper_applyTo_skip⟩
  · intro mp d d' h
    rcases transform_single_entry_mapper mp d d' h with ⟨es, hes, rfl⟩
    have hf2 := mapTable_forall2 mp.applyTo _ (entryMapper_applyTo_frame mp) d.entries es hes
    exact ⟨rfl, (List.Forall₂.length_eq hf2).symm, hf2⟩
  · intro mp d d' h
    rcases transform_single_obs_mapper mp d d' h with ⟨os, hos, rfl⟩
    have hf2 := mapTable_forall2 mp.applyTo _ (obsMapper_applyTo_frame mp) d.observables os hos
    exact ⟨rfl, (List.Forall₂.length_eq hf2).symm, hf2⟩

/-- Behaviour of a 1-input/1-output scalar Mapper rule on an attribute map
holding the input field. -/
theorem applyMapperAttrs_singleton (k k' : String) (f : Value → Value)
    (m : AttrMap) (v : Value) (hx : getAttr m k = some v) :
    applyMapperAttrs [k] [k'] (scalarFn f) m = .ok (setAttr m k' (f v)) := by
  simp [applyMapperAttrs, readFields, hx, scalarFn, writeFields]

/-! ## Claim C4 -/

/-- The first EntryMapper of the ordering scenario: read `a`, write `b`. -/
def c4f1 : EntryMapper :=
  { input_fields := ["a"], output_fields := ["b"], func := scalarFn id }

/-- The second EntryMapper of the ordering scenario: read `b`, write `c`. -/
def c4f2 : EntryMapper :=
  { input_fields := ["b"], output_fields := ["c"], func := scalarFn id }

/-- The ordering-scenario transformer, holding `[c4f1, c4f2]`. -/
def c4t : AttributesTransformer :=
  { entries_mappers := [c4f1, c4f2], observables_mappers := [] }

/-- A one-entry store whose entry has fields `a = va` and `b = vb`. -/
def c4store (va vb : Value) : Dataset :=
  { entries := [{ idx := 0, obs_ids := [], attrs := [("a", va), ("b", vb)] }],
    observables := [], entry_counter := 1, obs_counter := 0 }

/-- C4: `transform` applies the EntryMapper phase first and the
ObservableMapper phase second, and within each phase the Mappers apply
sequentially in list order — the table produced by one Mapper is the input
of the next; hence for `[c4f1 : a→b, c4f2 : b→c]` the resulting `c` is the
post-`c4f1` value of `b` (the original `a`), never the stale pre-`c4f1`
value `vb`. -/
theorem C4_transformer_ordering :
    (∀ (mp : EntryMapper) (mps : List EntryMapper) (es : List Entry),
      applyEntryMappers (mp :: mps) es
        = Except.bind (mapTable mp.applyTo es) (applyEntryMappers mps))
    ∧ (∀ (mp : ObservableMapper) (mps : List ObservableMapper) (os : List Observable),
      applyObservableMappers (mp :: mps) os
        = Except.bind (mapTable mp.applyTo os) (applyObservableMappers mps))
    ∧ (∀ (t : AttributesTransformer) (d : Dataset),
      t.transform d
        = Except.bind (applyEntryMappers t.entries_mappers d.entries)
            (fun es => Except.bind (applyObservableMappers t.observables_mappers d.observables)
              (fun os => .ok { d with entries := es, observables := os })))
    ∧ (∀ va vb : Value, ∃ d', c4t.transform (c4store va vb) = .ok d'
        ∧ d'.entries.map (fun e => getAttr e.attrs "c") = [some va]
        ∧ d'.entries.map (fun e => getAttr e.attrs "b") = [some va]) := by
  refine ⟨?_, ?_, ?_, ?_⟩
  · intro mp mps es
    cases h : mapTable mp.applyTo es <;>
      simp [applyEntryMappers, Except.bind, h]
  · intro mp mps os
    cases h : mapTable mp.applyTo os <;>
      simp [applyObservableMappers, Except.bind, h]
  · intro t d
    rw [AttributesTransformer.transform]
    cases h : applyEntryMappers t.entries_mappers d.entries with
    | error er => simp [Except.bind]
    | ok es =>
        cases h2 : applyObservableMappers t.observables_mappers d.observables <;>
          simp [Except.bind, h2]
  · intro va vb
    exact ⟨_, rfl, rfl, rfl⟩

/-! ## Claim C5 -/

/-- The scenario's transform function on values: integer increment. -/
def c5inc : Value → Value
  | .vInt n => .vInt (n + 1)
  | v => v

/-- The scenario's ObservableMapper: input `['xmin']`, output `['xmin']`,
scalar function `x -> x + 1`, category filter `type == 'object'`. -/
def c5map : ObservableMapper :=
  { input_fields := ["xmin"], output_fields := ["xmin"],
    func := scalarFn c5inc, obs_type := some "object" }

/-- A transformer holding just `c5map`. -/
def c5t : AttributesTransformer :=
  { entries_mappers := [], observables_mappers := [c5map] }

theorem c5map_applyTo (o o' : Observable) (h : c5map.applyTo o = .ok o') :
    (c5map.matchesFilter o = false → o' = o)
    ∧ (∀ n : Int, getAttr o.attrs "type" = some (.vStr "object") →
        getAttr o.attrs "xmin" = some (.vInt n) →
        o' = { o with attrs := setAttr o.attrs "xmin" (.vInt (n + 1)) }) := by
  rw [ObservableMapper.applyTo] at h
  by_cases hm : c5map.matchesFilter o = true
  · rw [if_pos hm] at h
    constructor
    · intro hno
      exact absurd hm (by simp [hno])
    · intro n _ hx
      have happ := applyMapperAttrs_singleton "xmin" "xmin" c5inc o.attrs _ hx
      have hfields : c5map.input_fields = ["xmin"] ∧ c5map.output_fields = ["xmin"]
          ∧ c5map.func = scalarFn c5inc := ⟨rfl, rfl, rfl⟩
      rw [hfields.1, hfields.2.1, hfields.2.2, happ] at h
      simp only [Except.map, Except.ok.injEq] at h
      subst h
      rfl
  · rw [if_neg hm] at h
    simp only [Except.ok.injEq] at h
    subst h
    exact ⟨fun _ => rfl, fun n ht _ => by
      exact absurd (by simp [ObservableMapper.matchesFilter, c5map, ht]) hm⟩

/-- C5: for every store, applying the `['xmin'] -> ['xmin']`, `x -> x + 1`,
`type == 'object'` ObservableMapper (through a transformer) leaves the
entries unchanged and, pointwise on the observables, increments `xmin` by 1
on exactly those whose `type` is `'object'` and passes every other
observable through unchanged; the single input field reaches the function as
a scalar and the single output is assigned as a scalar (`scalarFn`). -/
theorem C5_mapper_correctness :
    (∀ v : Value, c5map.func [v] = [c5inc v])
    ∧ (∀ d d' : Dataset, c5t.transform d = .ok d' →
        d'.entries = d.entries
        ∧ List.Forall₂ (fun o o' =>
            (c5map.matchesFilter o = false → o' = o)
            ∧ (∀ n : Int, getAttr o.attrs "type" = some (.vStr "object") →
                getAttr o.attrs "xmin" = some (.vInt n) →
                o' = { o with attrs := setAttr o.attrs "xmin" (.vInt (n + 1)) }))
          d.observables d'.observables) := by
  constructor
  · intro v
    rfl
  · intro d d' h
    rcases transform_single_obs_mapper c5map d d' h with ⟨os, hos, rfl⟩
    exact ⟨rfl, mapTable_forall2 c5map.applyTo _ c5map_applyTo d.observables os hos⟩

/-- The 10/5 store of the specification's Mapper-correctness property. -/
def c5store : Dataset :=
  { entries := [{ idx := 0, obs_ids := [0, 1], attrs := [] }],
    observables :=
      [{ idx := 0, entry_id := 0,
         attrs := [("type", .vStr "object"), ("xmin", .vInt 10)] },
       { idx := 1, entry_id := 0,
         attrs := [("type", .vStr "attribute"), ("xmin", .vInt 5)] }],
    entry_counter := 1, obs_counter := 2 }

/-- `c5store` after the mapper: `xmin` 11 on the object, 5 untouched. -/
def c5storeAfter : Dataset :=
  { entries := [{ idx := 0, obs_ids := [0, 1], attrs := [] }],
    observables :=
      [{ idx := 0, entry_id := 0,
         attrs := [("type", .vStr "object"), ("xmin", .vInt 11)] },
       { idx := 1, entry_id := 0,
         attrs := [("type", .vStr "attribute"), ("xmin", .vInt 5)] }],
    entry_counter := 1, obs_counter := 2 }

/-- Witness for C5 at the specification's concrete store: `type='object',
xmin=10` becomes 11, `type='attribute', xmin=5` is unchanged. -/
theorem C5_mapper_correctness_witness :
    c5t.transform c5store = .ok c5storeAfter
    ∧ c5storeAfter.entries = c5store.entries
    ∧ List.Forall₂ (fun o o' =>
        (c5map.matchesFilter o = false → o' = o)
        ∧ (∀ n : Int, getAttr o.attrs "type" = some (.vStr "object") →
            getAttr o.attrs "xmin" = some (.vInt n) →
            o' = { o with attrs := setAttr o.attrs "xmin" (.vInt (n + 1)) }))
      c5store.observables c5storeAfter.observables := by
  refine ⟨rfl, ?_, ?_⟩
  · exact (C5_mapper_correctness.2 c5store c5storeAfter rfl).1
  · exact (C5_mapper_correctness.2 c5store c5storeAfter rfl).2

/-- An identity EntryMapper on `filename`, for the C6 witness. -/
def c6mpE : EntryMapper :=
  { input_fields := ["filename"], output_fields := ["filename"], func := scalarFn id }

/-- An identity ObservableMapper on `type` with no filter, for the C6 witness. -/
def c6mpO : ObservableMapper :=
  { input_fields := ["type"], output_fields := ["type"],
    func := scalarFn id, obs_type := none }

/-- An ObservableMapper whose filter matches nothing in the witness store. -/
def c6mpZ : ObservableMapper :=
  { input_fields := ["type"], output_fields := ["type"],
    func := scalarFn id, obs_type := some "zzz" }

/-- Witness for C6: concrete Mapper runs over `c9d1`/`c9d2` preserving
record counts, structural fields, and filtered-out records. -/
theorem C6_mapper_frame_witness :
    (c9d1.observables = c9d1.observables
      ∧ c9d1.entries.length = c9d1.entries.length
      ∧ List.Forall₂ (fun e e' => e'.idx = e.idx ∧ e'.obs_ids = e.obs_ids)
          c9d1.entries c9d1.entries)
    ∧ (c9d2.entries = c9d2.entries
      ∧ c9d2.observables.length = c9d2.observables.length
      ∧ List.Forall₂ (fun o o' => o'.idx = o.idx ∧ o'.entry_id = o.entry_id
          ∧ (c6mpO.matchesFilter o = false → o' = o)) c9d2.observables c9d2.observables)
    ∧ c6mpZ.applyTo { idx := 0, entry_id := 0, attrs := c9attrsO }
        = .ok { idx := 0, entry_id := 0, attrs := c9attrsO } :=
  ⟨C6_mapper_frame.1 c6mpE c9d1 c9d1 rfl,
   C6_mapper_frame.2.1 c6mpO c9d2 c9d2 rfl,
   C6_mapper_frame.2.2 c6mpZ _ rfl⟩

/-! ## Claim C7 -/

/-- C7: the lookup/mutate calls fail with `NotFound` exactly when the idx
names no live record of the expected kind (`add_observable` when `entry_id`
names no live Entry); with the target present, `update_entry_data` fails
with `InvalidMutation` exactly when the partial attrs touch `idx` or
`obs_ids`; and every failing call leaves the store in its pre-call state. -/
theorem C7_error_handling :
    (∀ (d : Dataset) (i : Nat),
      get_entry d i = .error .notFound ↔ ¬ ∃ e ∈ d.entries, e.idx = i)
    ∧ (∀ (d : Dataset) (i : Nat) (attrs : AttrMap),
      update_entry_data d i attrs = .error .notFound ↔ ¬ ∃ e ∈ d.entries, e.idx = i)
    ∧ (∀ (d : Dataset) (i : Nat),
      remove_entry d i = .error .notFound ↔ ¬ ∃ e ∈ d.entries, e.idx = i)
    ∧ (∀ (d : Dataset) (i : Nat),
      remove_observable d i = .error .notFound ↔ ¬ ∃ o ∈ d.observables, o.idx = i)
    ∧ (∀ (d : Dataset) (eid : Nat) (attrs : AttrMap),
      add_observable d eid attrs = .error .notFound ↔ ¬ ∃ e ∈ d.entries, e.idx = eid)
    ∧ (∀ (d : Dataset) (i : Nat) (attrs : AttrMap),
      (∃ e ∈ d.entries, e.idx = i) →
      (update_entry_data d i attrs = .error .invalidMutation
        ↔ ∃ kv ∈ attrs, kv.1 = "idx" ∨ kv.1 = "obs_ids"))
    ∧ (∀ (d : Dataset) (op : Op),
      (applyOp d op).2.isSome = true → (applyOp d op).1 = d) := by
  refine ⟨?_, ?_, ?_, ?_, ?_, ?_, ?_⟩
  · intro d i
    rw [get_entry]
    cases hfind : d.entries.find? (fun e => e.idx == i) with
    | none =>
        simp only [iff_true_intro rfl, true_iff]
        rintro ⟨e, he, hei⟩
        have hne := List.find?_eq_none.mp hfind e he
        simp at hne
        exact hne hei
    | some e =>
        constructor
        · intro h
          exact absurd h (by simp)
        · intro hne
          exact absurd ⟨e, List.mem_of_find?_eq_some hfind,
            by simpa using List.find?_some hfind⟩ hne
  · intro d i attrs
    rw [update_entry_data]
    by_cases hany : d.entries.any (fun e => e.idx == i) = true
    · rw [if_pos hany]
      constructor
      · intro h
        by_cases hkey : attrs.any (fun kv => kv.1 == "idx" || kv.1 == "obs_ids") = true
        · rw [if_pos hkey] at h
          exact absurd h (by simp)
        · rw [if_neg hkey] at h
          exact absurd h (by simp)
      · intro hne
        exact absurd ((any_idx_iff d.entries i).mp hany) hne
    · rw [if_neg hany]
      simp only [iff_true_intro rfl, true_iff]
      intro hex
      exact hany ((any_idx_iff d.entries i).mpr hex)
  · intro d i
    rw [remove_entry]
    cases hfind : d.entries.find? (fun e => e.idx == i) with
    | none =>
        simp only [iff_true_intro rfl, true_iff]
        rintro ⟨e, he, hei⟩
        have hne := List.find?_eq_none.mp hfind e he
        simp at hne
        exact hne hei
    | some e =>
        constructor
        · intro h
          exact absurd h (by simp)
        · intro hne
          exact absurd ⟨e, List.mem_of_find?_eq_some hfind,
            by simpa using List.find?_some hfind⟩ hne
  · intro d i
    rw [remove_observable]
    cases hfind : d.observables.find? (fun o => o.idx == i) with
    | none =>
        simp only [iff_true_intro rfl, true_iff]
        rintro ⟨o, ho, hoi⟩
        have hne := List.find?_eq_none.mp hfind o ho
        simp at hne
        exact hne hoi
    | some o =>
        constructor
        · intro h
          exact absurd h (by simp)
        · intro hne
          exact absurd ⟨o, List.mem_of_find?_eq_some hfind,
            by simpa using List.find?_some hfind⟩ hne
  · intro d eid attrs
    rw [add_observable]
    by_cases hany : d.entries.any (fun e => e.idx == eid) = true
    · rw [if_pos hany]
      constructor
      · intro h
        exact absurd h (by simp)
      · intro hne
        exact absurd ((any_idx_iff d.entries eid).mp hany) hne
    · rw [if_neg hany]
      simp only [iff_true_intro rfl, true_iff]
      intro hex
      exact hany ((any_idx_iff d.entries eid).mpr hex)
  · intro d i attrs hex
    rw [update_entry_data, if_pos ((any_idx_iff d.entries i).mpr hex)]
    by_cases hkey : attrs.any (fun kv => kv.1 == "idx" || kv.1 == "obs_ids") = true
    · rw [if_pos hkey]
      simp only [iff_true_intro rfl, true_iff]
      rcases List.any_eq_true.mp hkey with ⟨kv, hkv, hp⟩
      refine ⟨kv, hkv, ?_⟩
      simpa using hp
    · rw [if_neg hkey]
      constructor
      · intro h
        exact absurd h (by simp)
      · rintro ⟨kv, hkv, hp⟩
        exact absurd (List.any_eq_true.mpr ⟨kv, hkv, by simpa using hp⟩) hkey
  · intro d op h
    cases op with
    | addEntry attrs => simp [applyOp] at h
    | addObservable eid attrs =>
        simp only [applyOp] at h ⊢
        cases hr : add_observable d eid attrs with
        | error er => simp [hr]
        | ok p => rw [hr] at h; simp at h
    | removeEntry i =>
        simp only [applyOp] at h ⊢
        cases hr : remove_entry d i with
        | error er => simp [hr]
        | ok d' => rw [hr] at h; simp at h
    | removeObservable i =>
        simp only [applyOp] at h ⊢
        cases hr : remove_observable d i with
        | error er => simp [hr]
        | ok d' => rw [hr] at h; simp at h
    | updateEntryData i attrs =>
        simp only [applyOp] at h ⊢
        cases hr : update_entry_data d i attrs with
        | error er => simp [hr]
        | ok d' => rw [hr] at h; simp at h

/-- Witness for C7 at concrete calls against `d2w`. -/
theorem C7_error_handling_witness :
    (remove_entry d2w 7 = .error .notFound ↔ ¬ ∃ e ∈ d2w.entries, e.idx = 7)
    ∧ (∃ e ∈ d2w.entries, e.idx = 0)
    ∧ (update_entry_data d2w 0 [("idx", Value.vInt 5)] = .error .invalidMutation
        ↔ ∃ kv ∈ [(("idx" : String), Value.vInt 5)], kv.1 = "idx" ∨ kv.1 = "obs_ids")
    ∧ (applyOp d2w (Op.removeEntry 7)).2.isSome = true
    ∧ (applyOp d2w (Op.removeEntry 7)).1 = d2w :=
  ⟨C7_error_handling.2.2.1 d2w 7, by decide,
   C7_error_handling.2.2.2.2.2.1 d2w 0 [("idx", Value.vInt 5)] (by decide),
   by decide,
   C7_error_handling.2.2.2.2.2.2 d2w (Op.removeEntry 7) (by decide)⟩

end Datum
